import Mathlib

/-!
Verification of the task-list functional core of the to-do application
(src/screens/Home.tsx): the Task data model, the mutation operations
addTask, toggleTask, deleteTask, the derived counts, and the
AsyncStorage persistence pair (saveTasks / loadTasks) with its JSON
round trip.  JavaScript built-ins used by the source (String.prototype.trim,
Number.prototype.toString, Date.now, JSON.stringify / JSON.parse) are
modelled explicitly; everything written by the repository itself is
translated definition-for-definition.
-/

namespace Todo

/-- Task record from Home.tsx: interface Task with id, text, completed. -/
structure Task where
  id : String
  text : String
  completed : Bool
deriving Repr, DecidableEq

/-- The characters String.prototype.trim removes, per ECMA-262: the
WhiteSpace production (TAB, VT, FF, SP, NBSP, ZWNBSP and the Unicode
space-separator category Zs) together with the LineTerminator production
(LF, CR, LS, PS). -/
def isJsWhitespace (c : Char) : Bool :=
  c.toNat == 0x9 || c.toNat == 0xA || c.toNat == 0xB || c.toNat == 0xC ||
  c.toNat == 0xD || c.toNat == 0x20 || c.toNat == 0xA0 || c.toNat == 0x1680 ||
  c.toNat == 0x2000 || c.toNat == 0x2001 || c.toNat == 0x2002 ||
  c.toNat == 0x2003 || c.toNat == 0x2004 || c.toNat == 0x2005 ||
  c.toNat == 0x2006 || c.toNat == 0x2007 || c.toNat == 0x2008 ||
  c.toNat == 0x2009 || c.toNat == 0x200A || c.toNat == 0x2028 ||
  c.toNat == 0x2029 || c.toNat == 0x202F || c.toNat == 0x205F ||
  c.toNat == 0x3000 || c.toNat == 0xFEFF

/-- List-level trim: drop leading whitespace, then drop trailing whitespace
(implemented by reversing, dropping leading, reversing back). -/
def trimList (l : List Char) : List Char :=
  ((l.dropWhile isJsWhitespace).reverse.dropWhile isJsWhitespace).reverse

/-- Model of the JavaScript built-in String.prototype.trim used by the source
(inputText.trim()): removes leading and trailing JS whitespace characters. -/
def jsTrim (s : String) : String :=
  String.mk (trimList s.data)

/-- Fuel-bounded little-endian base-10 digit extraction; with fuel at least n
it agrees with Nat.digits 10 n (proved below) and is kernel-computable. -/
def digitsFuel : Nat → Nat → List Nat
  | 0, _ => []
  | fuel + 1, n => if n = 0 then [] else n % 10 :: digitsFuel fuel (n / 10)

/-- Model of the JavaScript built-in Number.prototype.toString (base 10) on the
nonnegative integer returned by Date.now(): the decimal digit string. -/
def natToString (n : Nat) : String :=
  if n = 0 then "0" else String.mk ((digitsFuel n n).reverse.map Nat.digitChar)

/-- Outcome of one call to addTask: either the empty-input branch was taken
(the source shows an alert and returns without mutating) or a new task was
constructed and appended. -/
inductive AddOutcome where
  | emptyInput
  | added (t : Task)
deriving Repr, DecidableEq

/-- addTask from Home.tsx.  The component state inputText and the value of
Date.now() at the call are passed as arguments.  If the trimmed input is
empty the source alerts and returns (no mutation, modelled by the
emptyInput outcome); otherwise it builds the new task with
id = Date.now().toString(), the trimmed text and completed = false, and
appends it to the task list. -/
def addTask (tasks : List Task) (inputText : String) (now : Nat) :
    AddOutcome × List Task :=
  if jsTrim inputText = "" then
    (AddOutcome.emptyInput, tasks)
  else
    let newTask : Task :=
      { id := natToString now, text := jsTrim inputText, completed := false }
    (AddOutcome.added newTask, tasks ++ [newTask])

/-- toggleTask from Home.tsx: map over the tasks, flipping completed on every
task whose id equals the given id and leaving the others untouched. -/
def toggleTask (tasks : List Task) (id : String) : List Task :=
  tasks.map fun task =>
    if task.id = id then { task with completed := !task.completed } else task

/-- deleteTask from Home.tsx: keep exactly the tasks whose id differs from the
given id. -/
def deleteTask (tasks : List Task) (id : String) : List Task :=
  tasks.filter fun task => task.id != id

/-- completedCount from Home.tsx: tasks.filter((task) => task.completed).length. -/
def completedCount (tasks : List Task) : Nat :=
  (tasks.filter fun task => task.completed).length

/-- totalCount from Home.tsx: tasks.length. -/
def totalCount (tasks : List Task) : Nat :=
  tasks.length

/-- The summary pair of the specification, as derived in the source: the two
read-only values (completedCount, totalCount) computed from the task list. -/
def summary (tasks : List Task) : Nat × Nat :=
  (completedCount tasks, totalCount tasks)


/-! Basic structural lemmas about the three mutation operations. -/

theorem toggleTask_length (ts : List Task) (i : String) :
    (toggleTask ts i).length = ts.length := by
  simp [toggleTask]

theorem toggleTask_map_id (ts : List Task) (i : String) :
    (toggleTask ts i).map Task.id = ts.map Task.id := by
  simp only [toggleTask, List.map_map]
  refine List.map_congr_left fun t ht => ?_
  by_cases h : t.id = i <;> simp [h]

theorem toggleTask_map_text (ts : List Task) (i : String) :
    (toggleTask ts i).map Task.text = ts.map Task.text := by
  simp only [toggleTask, List.map_map]
  refine List.map_congr_left fun t ht => ?_
  by_cases h : t.id = i <;> simp [h]

theorem toggleTask_toggleTask (ts : List Task) (i : String) :
    toggleTask (toggleTask ts i) i = ts := by
  induction ts with
  | nil => rfl
  | cons a ts ih =>
    simp only [toggleTask, List.map_cons, List.map_map] at ih ⊢
    by_cases h : a.id = i
    · subst h
      simp [Bool.not_not, ih]
    · simp [h, ih]

theorem toggleTask_eq_self (ts : List Task) (i : String)
    (h : ∀ t ∈ ts, t.id ≠ i) : toggleTask ts i = ts := by
  induction ts with
  | nil => rfl
  | cons a ts ih =>
    have ha : ¬ a.id = i := h a (List.mem_cons_self a ts)
    have ih2 := ih fun t ht => h t (List.mem_cons_of_mem a ht)
    simp only [toggleTask, List.map_cons] at ih2 ⊢
    simp [ha, ih2]

theorem deleteTask_eq_self (ts : List Task) (i : String)
    (h : ∀ t ∈ ts, t.id ≠ i) : deleteTask ts i = ts :=
  List.filter_eq_self.mpr fun t ht => bne_iff_ne.mpr (h t ht)

theorem deleteTask_id_ne (ts : List Task) (i : String) :
    ∀ t ∈ deleteTask ts i, t.id ≠ i := fun _ ht =>
  bne_iff_ne.mp (List.mem_filter.mp ht).2

theorem mem_of_mem_deleteTask (ts : List Task) (i : String) :
    ∀ t ∈ deleteTask ts i, t ∈ ts := fun _ ht =>
  (List.mem_filter.mp ht).1

theorem toggleTask_getElem? (ts : List Task) (i : String) (n : Nat)
    (hn : n < ts.length) :
    (toggleTask ts i)[n]? = some (if (ts.get ⟨n, hn⟩).id = i
      then { ts.get ⟨n, hn⟩ with completed := !(ts.get ⟨n, hn⟩).completed }
      else ts.get ⟨n, hn⟩) := by
  simp [toggleTask, List.getElem?_map, List.getElem?_eq_getElem hn,
    List.get_eq_getElem]

/-- C3: for every input string whose trimmed form is non-empty, addTask
constructs the task with the trimmed text, a fresh id and completed = false,
reports it as added, appends it at the end leaving all previous tasks
unchanged in content and order, and totalCount grows by exactly one. -/
theorem addTask_appends (ts : List Task) (s : String) (now : Nat)
    (h : jsTrim s ≠ "") :
    addTask ts s now =
      (AddOutcome.added { id := natToString now, text := jsTrim s, completed := false },
        ts ++ [{ id := natToString now, text := jsTrim s, completed := false }])
    ∧ totalCount (addTask ts s now).2 = totalCount ts + 1 := by
  refine ⟨by simp [addTask, h], ?_⟩
  simp [addTask, h, totalCount]

theorem addTask_appends_witness :
    jsTrim "Buy milk" ≠ "" ∧
      (addTask [⟨"1", "old", true⟩] "Buy milk" 7 =
        (AddOutcome.added { id := natToString 7, text := jsTrim "Buy milk", completed := false },
          [⟨"1", "old", true⟩] ++
            [{ id := natToString 7, text := jsTrim "Buy milk", completed := false }])
        ∧ totalCount (addTask [⟨"1", "old", true⟩] "Buy milk" 7).2 =
            totalCount [⟨"1", "old", true⟩] + 1) :=
  ⟨by decide, addTask_appends [⟨"1", "old", true⟩] "Buy milk" 7 (by decide)⟩

/-- C5: for every input whose trimmed form is empty, addTask reports the
empty-input failure (the alert branch) and leaves the task list unchanged. -/
theorem addTask_emptyInput (ts : List Task) (s : String) (now : Nat)
    (h : jsTrim s = "") :
    addTask ts s now = (AddOutcome.emptyInput, ts) := by
  simp [addTask, h]

theorem addTask_emptyInput_witness :
    jsTrim "   " = "" ∧
      addTask [⟨"1", "old", true⟩] "   " 7 = (AddOutcome.emptyInput, [⟨"1", "old", true⟩]) :=
  ⟨by decide, addTask_emptyInput [⟨"1", "old", true⟩] "   " 7 (by decide)⟩

/-- C6: toggling the id of the task at position n flips that task's completed
flag in place, preserves the length and the task's position, and toggling the
same id twice restores the whole list. -/
theorem toggleTask_flips (ts : List Task) (n : Nat) (hn : n < ts.length) :
    (toggleTask ts (ts.get ⟨n, hn⟩).id).length = ts.length
    ∧ (toggleTask ts (ts.get ⟨n, hn⟩).id)[n]? =
        some { ts.get ⟨n, hn⟩ with completed := !(ts.get ⟨n, hn⟩).completed }
    ∧ toggleTask (toggleTask ts (ts.get ⟨n, hn⟩).id) (ts.get ⟨n, hn⟩).id = ts := by
  refine ⟨toggleTask_length _ _, ?_, toggleTask_toggleTask _ _⟩
  rw [toggleTask_getElem? ts _ n hn]
  simp

theorem toggleTask_flips_witness :
    (0 : Nat) < ([⟨"1", "a", false⟩, ⟨"2", "b", true⟩] : List Task).length ∧
      ((toggleTask [⟨"1", "a", false⟩, ⟨"2", "b", true⟩]
          (([⟨"1", "a", false⟩, ⟨"2", "b", true⟩] : List Task).get ⟨0, by decide⟩).id).length =
        ([⟨"1", "a", false⟩, ⟨"2", "b", true⟩] : List Task).length
      ∧ (toggleTask [⟨"1", "a", false⟩, ⟨"2", "b", true⟩]
          (([⟨"1", "a", false⟩, ⟨"2", "b", true⟩] : List Task).get ⟨0, by decide⟩).id)[0]? =
          some { ([⟨"1", "a", false⟩, ⟨"2", "b", true⟩] : List Task).get ⟨0, by decide⟩ with
            completed := !(([⟨"1", "a", false⟩, ⟨"2", "b", true⟩] : List Task).get ⟨0, by decide⟩).completed }
      ∧ toggleTask (toggleTask [⟨"1", "a", false⟩, ⟨"2", "b", true⟩]
            (([⟨"1", "a", false⟩, ⟨"2", "b", true⟩] : List Task).get ⟨0, by decide⟩).id)
          (([⟨"1", "a", false⟩, ⟨"2", "b", true⟩] : List Task).get ⟨0, by decide⟩).id =
          [⟨"1", "a", false⟩, ⟨"2", "b", true⟩]) :=
  ⟨by decide, toggleTask_flips [⟨"1", "a", false⟩, ⟨"2", "b", true⟩] 0 (by decide)⟩

/-- C7: for an id that no task in the list carries, toggleTask and deleteTask
are no-ops; moreover, after any deleteTask of an id, a further toggleTask or
deleteTask of that id changes nothing. -/
theorem absent_id_noop (ts : List Task) (i : String)
    (h : ∀ t ∈ ts, t.id ≠ i) :
    toggleTask ts i = ts ∧ deleteTask ts i = ts
    ∧ toggleTask (deleteTask ts i) i = deleteTask ts i
    ∧ deleteTask (deleteTask ts i) i = deleteTask ts i :=
  ⟨toggleTask_eq_self ts i h, deleteTask_eq_self ts i h,
    toggleTask_eq_self _ i (deleteTask_id_ne ts i),
    deleteTask_eq_self _ i (deleteTask_id_ne ts i)⟩

theorem absent_id_noop_witness :
    (∀ t ∈ ([⟨"1", "a", false⟩] : List Task), t.id ≠ "2") ∧
      (toggleTask [⟨"1", "a", false⟩] "2" = [⟨"1", "a", false⟩]
      ∧ deleteTask [⟨"1", "a", false⟩] "2" = [⟨"1", "a", false⟩]
      ∧ toggleTask (deleteTask [⟨"1", "a", false⟩] "2") "2" =
          deleteTask [⟨"1", "a", false⟩] "2"
      ∧ deleteTask (deleteTask [⟨"1", "a", false⟩] "2") "2" =
          deleteTask [⟨"1", "a", false⟩] "2") :=
  ⟨by decide, absent_id_noop [⟨"1", "a", false⟩] "2" (by decide)⟩

/-- C8: summary is a pure function of the task list returning exactly the
number of completed tasks and the total number of tasks; on the scenario
add "Buy milk", add "Walk dog", toggle the id of "Buy milk" it yields (1, 2). -/
theorem summary_spec :
    (∀ ts : List Task, summary ts = (ts.countP (fun t => t.completed), ts.length))
    ∧ summary (toggleTask (addTask (addTask [] "Buy milk" 1).2 "Walk dog" 2).2
        (natToString 1)) = (1, 2) := by
  refine ⟨fun ts => ?_, by decide⟩
  simp [summary, completedCount, totalCount, List.countP_eq_length_filter]

/-- C10: toggleTask changes at most the completed field of tasks whose id
matches: the length, every id and every text are unchanged, and the task at
any position n is either exactly flipped (if its id matches) or untouched. -/
theorem toggleTask_frame (ts : List Task) (i : String) (n : Nat)
    (hn : n < ts.length) :
    (toggleTask ts i).length = ts.length
    ∧ (toggleTask ts i).map Task.id = ts.map Task.id
    ∧ (toggleTask ts i).map Task.text = ts.map Task.text
    ∧ (toggleTask ts i)[n]? = some (if (ts.get ⟨n, hn⟩).id = i
        then { ts.get ⟨n, hn⟩ with completed := !(ts.get ⟨n, hn⟩).completed }
        else ts.get ⟨n, hn⟩) :=
  ⟨toggleTask_length ts i, toggleTask_map_id ts i, toggleTask_map_text ts i,
    toggleTask_getElem? ts i n hn⟩

theorem toggleTask_frame_witness :
    (1 : Nat) < ([⟨"1", "a", false⟩, ⟨"2", "b", true⟩] : List Task).length ∧
      ((toggleTask [⟨"1", "a", false⟩, ⟨"2", "b", true⟩] "1").length =
        ([⟨"1", "a", false⟩, ⟨"2", "b", true⟩] : List Task).length
      ∧ (toggleTask [⟨"1", "a", false⟩, ⟨"2", "b", true⟩] "1").map Task.id =
          ([⟨"1", "a", false⟩, ⟨"2", "b", true⟩] : List Task).map Task.id
      ∧ (toggleTask [⟨"1", "a", false⟩, ⟨"2", "b", true⟩] "1").map Task.text =
          ([⟨"1", "a", false⟩, ⟨"2", "b", true⟩] : List Task).map Task.text
      ∧ (toggleTask [⟨"1", "a", false⟩, ⟨"2", "b", true⟩] "1")[1]? =
          some (if (([⟨"1", "a", false⟩, ⟨"2", "b", true⟩] : List Task).get ⟨1, by decide⟩).id = "1"
            then { ([⟨"1", "a", false⟩, ⟨"2", "b", true⟩] : List Task).get ⟨1, by decide⟩ with
              completed := !(([⟨"1", "a", false⟩, ⟨"2", "b", true⟩] : List Task).get ⟨1, by decide⟩).completed }
            else ([⟨"1", "a", false⟩, ⟨"2", "b", true⟩] : List Task).get ⟨1, by decide⟩)) :=
  ⟨by decide, toggleTask_frame [⟨"1", "a", false⟩, ⟨"2", "b", true⟩] "1" 1 (by decide)⟩


/-! Persistence model.  The source serializes the task list with
JSON.stringify into the single AsyncStorage key and reads it back with
JSON.parse.  The serialized text is modelled by the JSON value it denotes
(JSON.parse and JSON.stringify are mutually inverse between such texts and
values); a stored text that JSON.parse rejects is modelled by the
dedicated corrupt constructor. -/

/-- JSON values, the results of JSON.parse on the stored text. -/
inductive Json where
  | null
  | bool (b : Bool)
  | num (n : Int)
  | str (s : String)
  | arr (elems : List Json)
  | obj (fields : List (String × Json))

/-- STORAGE_KEY from Home.tsx, the single fixed AsyncStorage key. -/
def STORAGE_KEY : String := "@todo_tasks"

/-- Contents of the AsyncStorage cell under STORAGE_KEY: absent
(getItem returns null), present but rejected by JSON.parse (corrupt), or
present and parsing to a JSON value. -/
inductive StoredValue where
  | absent
  | corrupt
  | value (j : Json)

/-- JSON object written by JSON.stringify for one task. -/
def taskToJson (t : Task) : Json :=
  Json.obj [("id", Json.str t.id), ("text", Json.str t.text),
    ("completed", Json.bool t.completed)]

/-- saveTasks from Home.tsx: setItem(STORAGE_KEY, JSON.stringify(tasks)),
modelled as storing the JSON array of task objects. -/
def saveTasks (tasks : List Task) : StoredValue :=
  StoredValue.value (Json.arr (tasks.map taskToJson))

/-- Reading one task record back from its JSON object.  The source performs
no validation (the JSON.parse result is used as Task[] directly); this
decoder expresses which JSON values denote a well-formed task record. -/
def jsonToTask : Json → Option Task
  | Json.obj [("id", Json.str i), ("text", Json.str tx), ("completed", Json.bool c)] =>
      some { id := i, text := tx, completed := c }
  | _ => none

/-- Reading a list of task records back from a list of JSON values. -/
def jsonListToTasks : List Json → Option (List Task)
  | [] => some []
  | j :: js =>
    match jsonToTask j, jsonListToTasks js with
    | some t, some ts => some (t :: ts)
    | _, _ => none

/-- Which JSON values denote a well-formed Task sequence. -/
def jsonToTasks : Json → Option (List Task)
  | Json.arr js => jsonListToTasks js
  | _ => none

/-- loadTasks from Home.tsx, expressed as the JS value held by the tasks
state after the call, given the stored value and the tasks value from before
the call (the initial [] at mount).  If getItem returns null nothing happens;
if JSON.parse throws, the catch block logs and nothing happens; otherwise
setTasks installs the parsed JSON value as is, with no shape validation. -/
def loadTasks (stored : StoredValue) (tasks : Json) : Json :=
  match stored with
  | StoredValue.absent => tasks
  | StoredValue.corrupt => tasks
  | StoredValue.value j => j

theorem jsonToTask_taskToJson (t : Task) : jsonToTask (taskToJson t) = some t := rfl

theorem jsonListToTasks_map (ts : List Task) :
    jsonListToTasks (ts.map taskToJson) = some ts := by
  induction ts with
  | nil => rfl
  | cons t ts ih => simp [jsonListToTasks, jsonToTask_taskToJson, ih]

/-- C2: saving any task list and loading the stored result yields a JSON
value that denotes exactly the original list: same ids, texts and completed
flags in the same order. -/
theorem save_load_roundtrip (ts : List Task) :
    jsonToTasks (loadTasks (saveTasks ts) (Json.arr [])) = some ts := by
  simp [saveTasks, loadTasks, jsonToTasks, jsonListToTasks_map]

/-- C9 counterexample: the stored text "42" parses as the JSON number 42,
which is not a Task sequence, yet loadTasks installs it instead of leaving
the store empty. -/
theorem load_nontask_json_not_empty :
    jsonToTasks (Json.num 42) = none
    ∧ loadTasks (StoredValue.value (Json.num 42)) (Json.arr []) = Json.num 42
    ∧ loadTasks (StoredValue.value (Json.num 42)) (Json.arr []) ≠ Json.arr [] :=
  ⟨rfl, rfl, fun h => Json.noConfusion h⟩

/-- C9 amended: when the stored value is absent or is rejected by JSON.parse,
loadTasks leaves the initial empty store in place and no error escapes (the
catch block absorbs the parse failure); a value that does parse as JSON is
installed unchanged, without any validation that it is a Task sequence. -/
theorem load_corrupt_empty :
    loadTasks StoredValue.absent (Json.arr []) = Json.arr []
    ∧ loadTasks StoredValue.corrupt (Json.arr []) = Json.arr []
    ∧ ∀ j : Json, loadTasks (StoredValue.value j) (Json.arr []) = j :=
  ⟨rfl, rfl, fun _ => rfl⟩


/-! Injectivity of the decimal id string: distinct Date.now() values give
distinct ids. -/

theorem digitsFuel_eq_digits (fuel : Nat) :
    ∀ n ≤ fuel, digitsFuel fuel n = Nat.digits 10 n := by
  induction fuel with
  | zero =>
    intro n hn
    have h0 : n = 0 := Nat.le_zero.mp hn
    subst h0
    simp [digitsFuel]
  | succ fuel ih =>
    intro n hn
    by_cases h0 : n = 0
    · subst h0
      simp [digitsFuel]
    · have hpos : 0 < n := Nat.pos_of_ne_zero h0
      rw [Nat.digits_def' (by norm_num : 1 < 10) hpos]
      simp only [digitsFuel, if_neg h0]
      have hdiv : n / 10 ≤ fuel := by
        have := Nat.div_lt_self hpos (by norm_num : 1 < 10)
        omega
      rw [ih (n / 10) hdiv]

theorem digitChar_inj_lt :
    ∀ d < 10, ∀ e < 10, Nat.digitChar d = Nat.digitChar e → d = e := by decide

theorem map_digitChar_inj :
    ∀ (l1 l2 : List Nat), (∀ d ∈ l1, d < 10) → (∀ d ∈ l2, d < 10) →
      l1.map Nat.digitChar = l2.map Nat.digitChar → l1 = l2
  | [], [], _, _, _ => rfl
  | [], _ :: _, _, _, h => by simp at h
  | _ :: _, [], _, _, h => by simp at h
  | a :: l1, b :: l2, h1, h2, h => by
    simp only [List.map_cons, List.cons.injEq] at h
    have ha := h1 a (List.mem_cons_self a l1)
    have hb := h2 b (List.mem_cons_self b l2)
    have hab := digitChar_inj_lt a ha b hb h.1
    have htl := map_digitChar_inj l1 l2 (fun d hd => h1 d (List.mem_cons_of_mem _ hd))
      (fun d hd => h2 d (List.mem_cons_of_mem _ hd)) h.2
    simp [hab, htl]

theorem natToString_digits (n : Nat) (h : n ≠ 0) :
    natToString n = String.mk ((Nat.digits 10 n).reverse.map Nat.digitChar) := by
  simp [natToString, h, digitsFuel_eq_digits n n (Nat.le_refl n)]

theorem natToString_ne_zero_str (n : Nat) (hn : n ≠ 0) : natToString n ≠ "0" := by
  rw [natToString_digits n hn]
  intro h
  have hl : (Nat.digits 10 n).reverse.map Nat.digitChar = ['0'] := by
    have := congrArg String.data h
    simpa using this
  rcases hrev : (Nat.digits 10 n).reverse with _ | ⟨d, rest⟩
  · rw [hrev] at hl
    simp at hl
  · rw [hrev] at hl
    simp only [List.map_cons, List.cons.injEq] at hl
    obtain ⟨hd0, hrest⟩ := hl
    have hrest0 : rest = [] := by simpa using hrest
    subst hrest0
    have hdig : Nat.digits 10 n = [d] := by
      have := congrArg List.reverse hrev
      simpa using this
    have hdmem : d ∈ Nat.digits 10 n := by simp [hdig]
    have hdlt : d < 10 := Nat.digits_lt_base (by norm_num) hdmem
    have hd0' : d = 0 := digitChar_inj_lt d hdlt 0 (by norm_num) hd0
    subst hd0'
    have hof := Nat.ofDigits_digits 10 n
    rw [hdig] at hof
    simp [Nat.ofDigits_cons, Nat.ofDigits_nil] at hof
    omega

theorem natToString_injective : Function.Injective natToString := by
  intro m n h
  by_cases hm : m = 0 <;> by_cases hn : n = 0
  · exact hm.trans hn.symm
  · exfalso
    subst hm
    have h0 : natToString 0 = "0" := rfl
    exact natToString_ne_zero_str n hn (h.symm.trans h0)
  · exfalso
    subst hn
    have h0 : natToString 0 = "0" := rfl
    exact natToString_ne_zero_str m hm (h.trans h0)
  · rw [natToString_digits m hm, natToString_digits n hn] at h
    have hl : (Nat.digits 10 m).reverse.map Nat.digitChar
        = (Nat.digits 10 n).reverse.map Nat.digitChar := by
      have := congrArg String.data h
      simpa using this
    have hd : (Nat.digits 10 m).reverse = (Nat.digits 10 n).reverse :=
      map_digitChar_inj _ _
        (fun d hd => Nat.digits_lt_base (by norm_num) (List.mem_reverse.mp hd))
        (fun d hd => Nat.digits_lt_base (by norm_num) (List.mem_reverse.mp hd)) hl
    have hdig : Nat.digits 10 m = Nat.digits 10 n := List.reverse_injective hd
    exact Nat.digits.injective 10 hdig


/-! Text invariant: trimmed non-empty input stays non-empty and not
whitespace-only. -/

/-- Text invariant of the specification: the string is neither empty nor
whitespace-only, whitespace taken in the JS sense that the program's own
trim check enforces. -/
def GoodText (s : String) : Prop :=
  s ≠ "" ∧ ¬ ∀ c ∈ s.data, isJsWhitespace c = true

theorem trimList_eq_nil_of_all_ws (l : List Char)
    (h : ∀ c ∈ trimList l, isJsWhitespace c = true) : trimList l = [] := by
  unfold trimList
  by_cases hx : (l.dropWhile isJsWhitespace).reverse.dropWhile isJsWhitespace = []
  · simp [hx]
  · exfalso
    have hlen : 0 < ((l.dropWhile isJsWhitespace).reverse.dropWhile isJsWhitespace).length :=
      List.length_pos.mpr hx
    refine List.dropWhile_get_zero_not isJsWhitespace _ hlen ?_
    apply h
    unfold trimList
    rw [List.mem_reverse]
    exact List.get_mem _ _ _

theorem goodText_of_jsTrim_ne_empty (s : String) (h : jsTrim s ≠ "") :
    GoodText (jsTrim s) := by
  refine ⟨h, fun hall => h ?_⟩
  have hdata : (jsTrim s).data = trimList s.data := rfl
  rw [hdata] at hall
  have hnil := trimList_eq_nil_of_all_ws s.data hall
  show jsTrim s = ""
  unfold jsTrim
  rw [hnil]

/-! Session model: the in-memory task list together with the stored
snapshot, driven by the user-triggered operations. -/

/-- Operations the presentation layer can trigger: addTask with the input
text and the Date.now() value observed at the call, toggleTask, deleteTask,
and re-running loadTasks against the stored snapshot. -/
inductive Op where
  | add (input : String) (now : Nat)
  | toggle (id : String)
  | delete (id : String)
  | load
deriving Repr, DecidableEq

/-- Session state: the in-memory task list plus the AsyncStorage snapshot,
recorded as the task list the stored JSON denotes.  The source writes
JSON.stringify(tasks) after every setTasks (the save effect) and reads it
back with JSON.parse; by the round-trip theorem the stored JSON of the
app's own saves denotes exactly the saved list, so the session model tracks
that list (none = key absent, nothing saved yet). -/
structure AppState where
  tasks : List Task
  storage : Option (List Task)
deriving Repr, DecidableEq

/-- Initial state: empty task list (useState([])) and absent storage key. -/
def initState : AppState := { tasks := [], storage := none }

/-- One operation: the mutation from Home.tsx followed by the save effect
(which fires whenever setTasks was called), or loadTasks.  The empty-input
add branch returns before calling setTasks, so neither the list nor the
stored snapshot changes there. -/
def runOp (s : AppState) : Op → AppState
  | Op.add input now =>
    match addTask s.tasks input now with
    | (AddOutcome.emptyInput, _) => s
    | (AddOutcome.added _, tasks) => { tasks := tasks, storage := some tasks }
  | Op.toggle i =>
    { tasks := toggleTask s.tasks i, storage := some (toggleTask s.tasks i) }
  | Op.delete i =>
    { tasks := deleteTask s.tasks i, storage := some (deleteTask s.tasks i) }
  | Op.load =>
    match s.storage with
    | none => s
    | some l => { tasks := l, storage := some l }

/-- Reachable states: run a list of operations from the initial state. -/
def runOps (ops : List Op) : AppState :=
  ops.foldl runOp initState

/-- Date.now() values observed by the add operations of a session, in order. -/
def addNows : List Op → List Nat
  | [] => []
  | Op.add _ now :: rest => now :: addNows rest
  | Op.toggle _ :: rest => addNows rest
  | Op.delete _ :: rest => addNows rest
  | Op.load :: rest => addNows rest

theorem addTask_snd_of_empty (ts : List Task) (input : String) (now : Nat)
    (he : jsTrim input = "") : addTask ts input now = (AddOutcome.emptyInput, ts) := by
  simp [addTask, he]

theorem addTask_of_ne_empty (ts : List Task) (input : String) (now : Nat)
    (he : jsTrim input ≠ "") :
    addTask ts input now =
      (AddOutcome.added { id := natToString now, text := jsTrim input, completed := false },
        ts ++ [{ id := natToString now, text := jsTrim input, completed := false }]) := by
  simp [addTask, he]

/-- Every task of the toggled list shares id and text with a task of the
original list. -/
theorem mem_toggleTask (ts : List Task) (i : String) :
    ∀ t ∈ toggleTask ts i, ∃ u ∈ ts, t.id = u.id ∧ t.text = u.text := by
  intro t ht
  simp only [toggleTask, List.mem_map] at ht
  obtain ⟨u, hu, rfl⟩ := ht
  by_cases h : u.id = i
  · exact ⟨u, hu, by simp [h], by simp [h]⟩
  · exact ⟨u, hu, by simp [h], by simp [h]⟩

/-! C4 invariant: every reachable task text is good. -/

def GoodTexts (ts : List Task) : Prop := ∀ t ∈ ts, GoodText t.text

def GoodTextState (s : AppState) : Prop :=
  GoodTexts s.tasks ∧ ∀ l, s.storage = some l → GoodTexts l

theorem goodTexts_append_new (ts : List Task) (input : String) (now : Nat)
    (he : jsTrim input ≠ "") (h : GoodTexts ts) :
    GoodTexts (ts ++ [{ id := natToString now, text := jsTrim input, completed := false }]) := by
  intro t ht
  rcases List.mem_append.mp ht with h1 | h2
  · exact h t h1
  · have h3 : t = { id := natToString now, text := jsTrim input, completed := false } := by
      simpa using h2
    rw [h3]
    exact goodText_of_jsTrim_ne_empty input he

theorem goodTexts_toggle (ts : List Task) (i : String) (h : GoodTexts ts) :
    GoodTexts (toggleTask ts i) := by
  intro t ht
  obtain ⟨u, hu, _, htext⟩ := mem_toggleTask ts i t ht
  rw [htext]
  exact h u hu

theorem goodTexts_delete (ts : List Task) (i : String) (h : GoodTexts ts) :
    GoodTexts (deleteTask ts i) := fun t ht => h t (mem_of_mem_deleteTask ts i t ht)

theorem runOp_goodTextState (s : AppState) (op : Op) (h : GoodTextState s) :
    GoodTextState (runOp s op) := by
  obtain ⟨htasks, hstore⟩ := h
  cases op with
  | add input now =>
    by_cases he : jsTrim input = ""
    · simp only [runOp, addTask_snd_of_empty s.tasks input now he]
      exact ⟨htasks, hstore⟩
    · simp only [runOp, addTask_of_ne_empty s.tasks input now he]
      refine ⟨goodTexts_append_new s.tasks input now he htasks, ?_⟩
      intro l hl
      injection hl with hl2
      rw [← hl2]
      exact goodTexts_append_new s.tasks input now he htasks
  | toggle i =>
    refine ⟨goodTexts_toggle s.tasks i htasks, ?_⟩
    intro l hl
    injection hl with hl2
    rw [← hl2]
    exact goodTexts_toggle s.tasks i htasks
  | delete i =>
    refine ⟨goodTexts_delete s.tasks i htasks, ?_⟩
    intro l hl
    injection hl with hl2
    rw [← hl2]
    exact goodTexts_delete s.tasks i htasks
  | load =>
    rcases hst : s.storage with _ | l
    · simpa [runOp, hst] using ⟨htasks, hstore⟩
    · have hl := hstore l hst
      simp only [runOp, hst]
      exact ⟨hl, fun l2 hl2 => by injection hl2 with h2; rw [← h2]; exact hl⟩

theorem runOps_goodTextState_aux (ops : List Op) (s : AppState)
    (h : GoodTextState s) : GoodTextState (List.foldl runOp s ops) := by
  induction ops generalizing s with
  | nil => exact h
  | cons op rest ih => exact ih (runOp s op) (runOp_goodTextState s op h)

/-- C4: in every reachable session state (any sequence of add, toggle,
delete and load operations from the initial empty store), every task's text
is neither empty nor whitespace-only. -/
theorem reachable_texts_good (ops : List Op) :
    ∀ t ∈ (runOps ops).tasks, GoodText t.text := by
  have h := runOps_goodTextState_aux ops initState
    ⟨fun t ht => absurd ht (List.not_mem_nil t), fun l hl => Option.noConfusion hl⟩
  exact h.1

theorem reachable_texts_good_witness : GoodText "hi" :=
  reachable_texts_good [Op.add " hi " 1] ⟨natToString 1, "hi", false⟩ (by decide)


/-! C1: id uniqueness across reachable states. -/

/-- All ids of the list are decimal strings of timestamps drawn from done,
and they are pairwise distinct. -/
def IdsFrom (done : List Nat) (ts : List Task) : Prop :=
  (ts.map Task.id).Nodup ∧ ∀ t ∈ ts, ∃ k ∈ done, t.id = natToString k

def IdState (done : List Nat) (s : AppState) : Prop :=
  IdsFrom done s.tasks ∧ ∀ l, s.storage = some l → IdsFrom done l

theorem idsFrom_mono (d1 d2 : List Nat) (ts : List Task)
    (hsub : ∀ k ∈ d1, k ∈ d2) (h : IdsFrom d1 ts) : IdsFrom d2 ts := by
  refine ⟨h.1, fun t ht => ?_⟩
  obtain ⟨k, hk1, hk2⟩ := h.2 t ht
  exact ⟨k, hsub k hk1, hk2⟩

theorem idsFrom_append_new (done : List Nat) (ts : List Task) (input : String)
    (now : Nat) (hnew : now ∉ done) (h : IdsFrom done ts) :
    IdsFrom (now :: done)
      (ts ++ [{ id := natToString now, text := jsTrim input, completed := false }]) := by
  constructor
  · rw [List.map_append, List.nodup_append]
    refine ⟨h.1, List.nodup_singleton _, ?_⟩
    intro a ha hb
    have ha2 : a ∈ ts.map Task.id := ha
    obtain ⟨t, ht, hta⟩ := List.mem_map.mp ha2
    obtain ⟨k, hk1, hk2⟩ := h.2 t ht
    have hb2 : a = natToString now := by simpa using hb
    have : natToString k = natToString now := by rw [← hk2, hta, hb2]
    have : k = now := natToString_injective this
    exact hnew (this ▸ hk1)
  · intro t ht
    rcases List.mem_append.mp ht with h1 | h2
    · obtain ⟨k, hk1, hk2⟩ := h.2 t h1
      exact ⟨k, List.mem_cons_of_mem _ hk1, hk2⟩
    · have h3 : t = { id := natToString now, text := jsTrim input, completed := false } := by
        simpa using h2
      exact ⟨now, List.mem_cons_self _ _, by rw [h3]⟩

theorem idsFrom_toggle (done : List Nat) (ts : List Task) (i : String)
    (h : IdsFrom done ts) : IdsFrom done (toggleTask ts i) := by
  refine ⟨by rw [toggleTask_map_id]; exact h.1, ?_⟩
  intro t ht
  obtain ⟨u, hu, hid, _⟩ := mem_toggleTask ts i t ht
  obtain ⟨k, hk1, hk2⟩ := h.2 u hu
  exact ⟨k, hk1, hid.trans hk2⟩

theorem idsFrom_delete (done : List Nat) (ts : List Task) (i : String)
    (h : IdsFrom done ts) : IdsFrom done (deleteTask ts i) := by
  refine ⟨?_, fun t ht => h.2 t (mem_of_mem_deleteTask ts i t ht)⟩
  have hsub : List.Sublist (deleteTask ts i) ts := List.filter_sublist ts
  exact h.1.sublist (hsub.map Task.id)

theorem runOp_idState_add (s : AppState) (input : String) (now : Nat)
    (done : List Nat) (h : IdState done s) (hnew : now ∉ done) :
    IdState (now :: done) (runOp s (Op.add input now)) := by
  obtain ⟨htasks, hstore⟩ := h
  by_cases he : jsTrim input = ""
  · simp only [runOp, addTask_snd_of_empty s.tasks input now he]
    refine ⟨idsFrom_mono done (now :: done) s.tasks (fun k hk => List.mem_cons_of_mem _ hk) htasks, ?_⟩
    intro l hl
    exact idsFrom_mono done (now :: done) l (fun k hk => List.mem_cons_of_mem _ hk) (hstore l hl)
  · simp only [runOp, addTask_of_ne_empty s.tasks input now he]
    refine ⟨idsFrom_append_new done s.tasks input now hnew htasks, ?_⟩
    intro l hl
    injection hl with hl2
    rw [← hl2]
    exact idsFrom_append_new done s.tasks input now hnew htasks

theorem runOp_idState_other (s : AppState) (op : Op) (done : List Nat)
    (h : IdState done s) (hop : addNows [op] = []) :
    IdState done (runOp s op) := by
  obtain ⟨htasks, hstore⟩ := h
  cases op with
  | add input now => simp [addNows] at hop
  | toggle i =>
    refine ⟨idsFrom_toggle done s.tasks i htasks, ?_⟩
    intro l hl
    injection hl with hl2
    rw [← hl2]
    exact idsFrom_toggle done s.tasks i htasks
  | delete i =>
    refine ⟨idsFrom_delete done s.tasks i htasks, ?_⟩
    intro l hl
    injection hl with hl2
    rw [← hl2]
    exact idsFrom_delete done s.tasks i htasks
  | load =>
    rcases hst : s.storage with _ | l
    · simpa [runOp, hst] using ⟨htasks, hstore⟩
    · have hl := hstore l hst
      simp only [runOp, hst]
      exact ⟨hl, fun l2 hl2 => by injection hl2 with h2; rw [← h2]; exact hl⟩

theorem runOps_idState_aux :
    ∀ (ops : List Op) (s : AppState) (done : List Nat),
      IdState done s → (∀ n ∈ addNows ops, n ∉ done) → (addNows ops).Nodup →
      ∃ done2, IdState done2 (List.foldl runOp s ops)
  | [], _, done, h, _, _ => ⟨done, h⟩
  | Op.add input now :: rest, s, done, h, hfresh, hnodup => by
    simp only [addNows] at hfresh hnodup
    have hnow : now ∉ done := hfresh now (List.mem_cons_self _ _)
    have h2 := runOp_idState_add s input now done h hnow
    refine runOps_idState_aux rest (runOp s (Op.add input now)) (now :: done) h2 ?_ ?_
    · intro n hn hmem
      rcases List.mem_cons.mp hmem with h3 | h3
      · exact (List.nodup_cons.mp hnodup).1 (h3 ▸ hn)
      · exact hfresh n (List.mem_cons_of_mem _ hn) h3
    · exact (List.nodup_cons.mp hnodup).2
  | Op.toggle i :: rest, s, done, h, hfresh, hnodup => by
    simp only [addNows] at hfresh hnodup
    exact runOps_idState_aux rest (runOp s (Op.toggle i)) done
      (runOp_idState_other s (Op.toggle i) done h rfl) hfresh hnodup
  | Op.delete i :: rest, s, done, h, hfresh, hnodup => by
    simp only [addNows] at hfresh hnodup
    exact runOps_idState_aux rest (runOp s (Op.delete i)) done
      (runOp_idState_other s (Op.delete i) done h rfl) hfresh hnodup
  | Op.load :: rest, s, done, h, hfresh, hnodup => by
    simp only [addNows] at hfresh hnodup
    exact runOps_idState_aux rest (runOp s Op.load) done
      (runOp_idState_other s Op.load done h rfl) hfresh hnodup

/-- C1 counterexample: two adds observing the same Date.now() value (here 5,
i.e. two additions within the same millisecond) reach a store holding two
distinct tasks that carry the same id "5". -/
theorem same_millisecond_breaks_id_uniqueness :
    (runOps [Op.add "a" 5, Op.add "b" 5]).tasks =
      [⟨"5", "a", false⟩, ⟨"5", "b", false⟩]
    ∧ ¬ ((runOps [Op.add "a" 5, Op.add "b" 5]).tasks.map Task.id).Nodup :=
  ⟨by decide, by decide⟩

/-- C1 amended: provided no two add operations of the session observe the
same Date.now() value (pairwise distinct timestamps), every reachable state
carries pairwise distinct task ids. -/
theorem reachable_ids_nodup (ops : List Op) (h : (addNows ops).Nodup) :
    ((runOps ops).tasks.map Task.id).Nodup := by
  obtain ⟨done2, hstate⟩ := runOps_idState_aux ops initState []
    ⟨⟨List.nodup_nil, fun t ht => absurd ht (List.not_mem_nil t)⟩,
      fun l hl => Option.noConfusion hl⟩
    (fun n _ => List.not_mem_nil n) h
  exact hstate.1.1

theorem reachable_ids_nodup_witness :
    (addNows [Op.add "a" 1, Op.add "b" 2]).Nodup ∧
      ((runOps [Op.add "a" 1, Op.add "b" 2]).tasks.map Task.id).Nodup :=
  ⟨by decide, reachable_ids_nodup [Op.add "a" 1, Op.add "b" 2] (by decide)⟩

end Todo
